import Mathlib

/-!
Verification of the PokerDataIngestion pipeline.

Shallow embedding of the session-assignment and transactional-ingestion
pipeline of the repository:

* `src/db/queries.py` — the SQL text blocks, embedded as pure functions over
  an in-memory table (`DB`).
* `src/importer/session_assigner.py` — `find_existing_session_within_gap`
  and `ensure_session_and_index`.
* `src/importer/gg_summary_parser.py` — `parse_money_usd` and
  `GGSummaryParser.parse` (the regex searches are abstracted as an input
  record holding the matched groups; the control flow and record
  construction are embedded faithfully).
* `src/importer/tournament_importer.py` — the per-file state machine of
  `TournamentImporter.run`, with exception points of the external
  filesystem/database operations made explicit as fault flags.

Modelling conventions: timestamps (`datetime`) are integers in abstract
time units, with `timedelta(minutes=g)` the same integer `g` (the scaling
between the two is an order- and difference-preserving isomorphism, so no
claim is affected); money (`float`) is embedded as `ℚ`; `uuid.uuid4()`
session-id minting is embedded as a fresh counter `DB.nextId`, making the
collision-freeness of random UUIDs an explicit modelling assumption.
-/

/-- One persisted `tournament_results` row, restricted to the columns the
session assigner and the importer read or write (`site`,
`tournament_start_ts_local`, `session_id`, `session_start_ts_local`,
`session_tournament_index`, `notes`, `modified_at`, `source_file_hash`).
The remaining columns of `SQL_INSERT_TOURNAMENT` (names, amounts, counts)
are copied verbatim from the parsed record and never queried again, so they
are omitted.  `modified_at` is tracked as a flag recording whether the SQL
`now()` assignment has happened. -/
structure Row where
  site : String
  ts : Int
  sessionId : Nat
  sessionStart : Int
  sessionIndex : Nat
  notes : Option String
  modifiedAt : Bool
  hash : Nat
deriving DecidableEq

/-- The relational store: the `tournament_results` table plus the counter
that models `uuid.uuid4()` minting of fresh session ids. -/
structure DB where
  rows : List Row
  nextId : Nat
deriving DecidableEq

def emptyDB : DB := { rows := [], nextId := 0 }

/-- Row filter of `SQL_PREV_WITHIN_GAP`: same site, at or before `ts`,
within `gap`. -/
def prevFilter (site : String) (ts gap : Int) (r : Row) : Bool :=
  decide (r.site = site ∧ r.ts ≤ ts ∧ ts - r.ts ≤ gap)

/-- Row filter of `SQL_NEXT_WITHIN_GAP`: same site, at or after `ts`,
within `gap`. -/
def nextFilter (site : String) (ts gap : Int) (r : Row) : Bool :=
  decide (r.site = site ∧ ts ≤ r.ts ∧ r.ts - ts ≤ gap)

/-- Pick between the current best row and the next row for a descending
`ORDER BY tournament_start_ts_local` scan: keep the strictly later row. -/
def chooseLater (b x : Row) : Row := if b.ts < x.ts then x else b

/-- Pick between the current best row and the next row for an ascending
`ORDER BY tournament_start_ts_local` scan: keep the strictly earlier row. -/
def chooseEarlier (b x : Row) : Row := if x.ts < b.ts then x else b

/-- `ORDER BY ts DESC LIMIT 1` on a list of rows (first listed row wins
ties, resolving the ordering SQL leaves unspecified). -/
def firstMaxByTs : List Row → Option Row
  | [] => none
  | r :: rs => some (rs.foldl chooseLater r)

/-- `ORDER BY ts ASC LIMIT 1` on a list of rows (first listed row wins
ties, resolving the ordering SQL leaves unspecified). -/
def firstMinByTs : List Row → Option Row
  | [] => none
  | r :: rs => some (rs.foldl chooseEarlier r)

/-- `MIN` aggregate over a list of timestamps. -/
def minTs : List Int → Option Int
  | [] => none
  | x :: xs => some (xs.foldl (fun b y => if y < b then y else b) x)

/-- Embedding of the `SQL_PREV_WITHIN_GAP` query of `src/db/queries.py`:
the chronologically latest same-site row at or before `ts` within `gap`. -/
def SQL_PREV_WITHIN_GAP (db : DB) (site : String) (ts gap : Int) : Option Row :=
  firstMaxByTs (db.rows.filter (prevFilter site ts gap))

/-- Embedding of the `SQL_NEXT_WITHIN_GAP` query: the chronologically
earliest same-site row at or after `ts` within `gap`. -/
def SQL_NEXT_WITHIN_GAP (db : DB) (site : String) (ts gap : Int) : Option Row :=
  firstMinByTs (db.rows.filter (nextFilter site ts gap))

/-- Embedding of `SQL_COUNT_BEFORE_IN_SESSION`: how many members of the
given site and session start strictly before `ts`. -/
def SQL_COUNT_BEFORE_IN_SESSION (db : DB) (site : String) (sid : Nat) (ts : Int) : Nat :=
  (db.rows.filter (fun r => decide (r.site = site ∧ r.sessionId = sid ∧ r.ts < ts))).length

/-- The SQL `CASE` expression of `SQL_BUMP_INDICES_AT_OR_AFTER_TS` that
appends the `index_shifted` audit note. -/
def appendShiftNote : Option String → String
  | none => "index_shifted"
  | some s => if s = "" then "index_shifted" else s ++ " | index_shifted"

/-- The per-row update of `SQL_BUMP_INDICES_AT_OR_AFTER_TS`: rows of the
given site and session at or after `ts` get their ordinal index incremented,
`modified_at` set, and the audit note appended; all other rows are kept. -/
def bumpRow (site : String) (sid : Nat) (ts : Int) (r : Row) : Row :=
  if r.site = site ∧ r.sessionId = sid ∧ ts ≤ r.ts then
    { r with sessionIndex := r.sessionIndex + 1, modifiedAt := true,
             notes := some (appendShiftNote r.notes) }
  else r

/-- Embedding of the `SQL_BUMP_INDICES_AT_OR_AFTER_TS` bulk `UPDATE`. -/
def SQL_BUMP_INDICES_AT_OR_AFTER_TS (db : DB) (site : String) (sid : Nat) (ts : Int) : DB :=
  { db with rows := db.rows.map (bumpRow site sid ts) }

/-- Embedding of `SQL_MIN_SESSION_START`: minimum member timestamp of the
given site and session (`none` when the session has no stored member). -/
def SQL_MIN_SESSION_START (db : DB) (site : String) (sid : Nat) : Option Int :=
  minTs ((db.rows.filter (fun r => decide (r.site = site ∧ r.sessionId = sid))).map (·.ts))

/-- Embedding of `SQL_HASH_EXISTS`: is some row stored under this content
hash? -/
def SQL_HASH_EXISTS (db : DB) (h : Nat) : Bool :=
  db.rows.any (fun r => decide (r.hash = h))

/-- Embedding of `SQL_INSERT_TOURNAMENT`: append one result row. -/
def SQL_INSERT_TOURNAMENT (db : DB) (r : Row) : DB :=
  { db with rows := db.rows ++ [r] }

/-- Embedding of `find_existing_session_within_gap` from
`src/importer/session_assigner.py`: the predecessor query is consulted
first and short-circuits the successor query.  (Stored `session_id` values
are non-empty uuid strings, so the Python truthiness test on the fetched
column is simply a match on the fetched row.)  The `timedelta(minutes=g)`
conversion is the identity in the integer time model, so `gap_minutes` is
passed to both queries directly. -/
def find_existing_session_within_gap (db : DB) (site : String) (ts : Int)
    (gap_minutes : Int) : Option (Nat × Int) :=
  match SQL_PREV_WITHIN_GAP db site ts gap_minutes with
  | some r => some (r.sessionId, r.sessionStart)
  | none =>
    match SQL_NEXT_WITHIN_GAP db site ts gap_minutes with
    | some r => some (r.sessionId, r.sessionStart)
    | none => none

/-- The `(session_id, session_start_ts_local, session_tournament_index)`
triple returned by `ensure_session_and_index`. -/
structure AssignResult where
  session_id : Nat
  session_start_ts_local : Int
  session_tournament_index : Nat
deriving DecidableEq

/-- Embedding of `ensure_session_and_index` from
`src/importer/session_assigner.py`.  Returns the assignment triple together
with the updated store (the bump update is the only write it performs; the
result insert is done by the caller).  Minting `str(uuid.uuid4())` is
modelled as consuming the fresh counter. -/
def ensure_session_and_index (db : DB) (site : String) (ts : Int)
    (gap_minutes : Int) : AssignResult × DB :=
  match find_existing_session_within_gap db site ts gap_minutes with
  | none => (⟨db.nextId, ts, 1⟩, { db with nextId := db.nextId + 1 })
  | some (sid, sstart) =>
    let countBefore := SQL_COUNT_BEFORE_IN_SESSION db site sid ts
    let newIndex := countBefore + 1
    let db1 := SQL_BUMP_INDICES_AT_OR_AFTER_TS db site sid ts
    let sessionStart :=
      match SQL_MIN_SESSION_START db1 site sid with
      | some m => m
      | none => sstart
    (⟨sid, sessionStart, newIndex⟩, db1)

/-- One `ensure_session_and_index` call followed by the corresponding
`SQL_INSERT_TOURNAMENT` of the new event, exactly as
`TournamentImporter.run` performs them inside one transaction. -/
def insertEvent (db : DB) (site : String) (ts : Int) (gap_minutes : Int)
    (fileHash : Nat) : DB :=
  let res := ensure_session_and_index db site ts gap_minutes
  SQL_INSERT_TOURNAMENT res.2
    { site := site, ts := ts, sessionId := res.1.session_id,
      sessionStart := res.1.session_start_ts_local,
      sessionIndex := res.1.session_tournament_index,
      notes := none, modifiedAt := false, hash := fileHash }

/-- One incoming event: site, event timestamp, gap in minutes, file hash. -/
def applyEvent (db : DB) (e : String × Int × Int × Nat) : DB :=
  insertEvent db e.1 e.2.1 e.2.2.1 e.2.2.2

/-- A whole history: any sequence of assign-then-insert operations starting
from the empty store. -/
def runEvents (evs : List (String × Int × Int × Nat)) : DB :=
  evs.foldl applyEvent emptyDB

theorem foldl_chooseLater_mem (rs : List Row) (r : Row) :
    rs.foldl chooseLater r ∈ r :: rs := by
  induction rs generalizing r with
  | nil => simp
  | cons x xs ih =>
    simp only [List.foldl_cons]
    have hc : chooseLater r x = r ∨ chooseLater r x = x := by
      unfold chooseLater; split
      · exact Or.inr rfl
      · exact Or.inl rfl
    rcases hc with hc | hc <;> rw [hc]
    · rcases List.mem_cons.mp (ih r) with h | h
      · simp [h]
      · simp [List.mem_cons, h]
    · rcases List.mem_cons.mp (ih x) with h | h
      · simp [h]
      · simp [List.mem_cons, h]

theorem foldl_chooseLater_ts (rs : List Row) (r : Row) :
    r.ts ≤ (rs.foldl chooseLater r).ts ∧
      ∀ x ∈ rs, x.ts ≤ (rs.foldl chooseLater r).ts := by
  induction rs generalizing r with
  | nil => simp
  | cons x xs ih =>
    simp only [List.foldl_cons]
    obtain ⟨h1, h2⟩ := ih (chooseLater r x)
    have hr : r.ts ≤ (chooseLater r x).ts := by
      unfold chooseLater; split <;> omega
    have hx : x.ts ≤ (chooseLater r x).ts := by
      unfold chooseLater; split <;> omega
    refine ⟨le_trans hr h1, ?_⟩
    intro y hy
    rcases List.mem_cons.mp hy with rfl | hy
    · exact le_trans hx h1
    · exact h2 y hy

theorem foldl_chooseEarlier_mem (rs : List Row) (r : Row) :
    rs.foldl chooseEarlier r ∈ r :: rs := by
  induction rs generalizing r with
  | nil => simp
  | cons x xs ih =>
    simp only [List.foldl_cons]
    have hc : chooseEarlier r x = r ∨ chooseEarlier r x = x := by
      unfold chooseEarlier; split
      · exact Or.inr rfl
      · exact Or.inl rfl
    rcases hc with hc | hc <;> rw [hc]
    · rcases List.mem_cons.mp (ih r) with h | h
      · simp [h]
      · simp [List.mem_cons, h]
    · rcases List.mem_cons.mp (ih x) with h | h
      · simp [h]
      · simp [List.mem_cons, h]

theorem foldl_chooseEarlier_ts (rs : List Row) (r : Row) :
    (rs.foldl chooseEarlier r).ts ≤ r.ts ∧
      ∀ x ∈ rs, (rs.foldl chooseEarlier r).ts ≤ x.ts := by
  induction rs generalizing r with
  | nil => simp
  | cons x xs ih =>
    simp only [List.foldl_cons]
    obtain ⟨h1, h2⟩ := ih (chooseEarlier r x)
    have hr : (chooseEarlier r x).ts ≤ r.ts := by
      unfold chooseEarlier; split <;> omega
    have hx : (chooseEarlier r x).ts ≤ x.ts := by
      unfold chooseEarlier; split <;> omega
    refine ⟨le_trans h1 hr, ?_⟩
    intro y hy
    rcases List.mem_cons.mp hy with rfl | hy
    · exact le_trans h1 hx
    · exact h2 y hy

theorem SQL_PREV_WITHIN_GAP_some {db : DB} {site : String} {ts gap : Int} {r : Row}
    (h : SQL_PREV_WITHIN_GAP db site ts gap = some r) :
    r ∈ db.rows ∧ r.site = site ∧ r.ts ≤ ts ∧ ts - r.ts ≤ gap ∧
      ∀ x ∈ db.rows, x.site = site → x.ts ≤ ts → ts - x.ts ≤ gap → x.ts ≤ r.ts := by
  unfold SQL_PREV_WITHIN_GAP firstMaxByTs at h
  rcases hfil : db.rows.filter (prevFilter site ts gap) with - | ⟨a, l⟩
  · rw [hfil] at h; exact absurd h (by simp)
  · rw [hfil] at h
    simp only [Option.some.injEq] at h
    subst h
    have hmem : l.foldl chooseLater a ∈ db.rows.filter (prevFilter site ts gap) := by
      rw [hfil]; exact foldl_chooseLater_mem l a
    have hq := List.mem_filter.mp hmem
    have h2 : prevFilter site ts gap (l.foldl chooseLater a) = true := hq.2
    unfold prevFilter at h2
    have hprop := of_decide_eq_true h2
    refine ⟨hq.1, hprop.1, hprop.2.1, hprop.2.2, ?_⟩
    intro x hx hsite hle hgap
    have hxf : x ∈ db.rows.filter (prevFilter site ts gap) := by
      refine List.mem_filter.mpr ⟨hx, ?_⟩
      unfold prevFilter
      exact decide_eq_true ⟨hsite, hle, hgap⟩
    rw [hfil] at hxf
    obtain ⟨h1, h2⟩ := foldl_chooseLater_ts l a
    rcases List.mem_cons.mp hxf with rfl | hxl
    · exact h1
    · exact h2 x hxl

theorem SQL_PREV_WITHIN_GAP_none {db : DB} {site : String} {ts gap : Int}
    (h : SQL_PREV_WITHIN_GAP db site ts gap = none) :
    ∀ x ∈ db.rows, ¬(x.site = site ∧ x.ts ≤ ts ∧ ts - x.ts ≤ gap) := by
  intro x hx hq
  unfold SQL_PREV_WITHIN_GAP firstMaxByTs at h
  rcases hfil : db.rows.filter (prevFilter site ts gap) with - | ⟨a, l⟩
  · have : x ∈ db.rows.filter (prevFilter site ts gap) := by
      refine List.mem_filter.mpr ⟨hx, ?_⟩
      unfold prevFilter
      exact decide_eq_true hq
    rw [hfil] at this
    exact absurd this (by simp)
  · rw [hfil] at h; exact absurd h (by simp)

theorem SQL_NEXT_WITHIN_GAP_some {db : DB} {site : String} {ts gap : Int} {r : Row}
    (h : SQL_NEXT_WITHIN_GAP db site ts gap = some r) :
    r ∈ db.rows ∧ r.site = site ∧ ts ≤ r.ts ∧ r.ts - ts ≤ gap ∧
      ∀ x ∈ db.rows, x.site = site → ts ≤ x.ts → x.ts - ts ≤ gap → r.ts ≤ x.ts := by
  unfold SQL_NEXT_WITHIN_GAP firstMinByTs at h
  rcases hfil : db.rows.filter (nextFilter site ts gap) with - | ⟨a, l⟩
  · rw [hfil] at h; exact absurd h (by simp)
  · rw [hfil] at h
    simp only [Option.some.injEq] at h
    subst h
    have hmem : l.foldl chooseEarlier a ∈ db.rows.filter (nextFilter site ts gap) := by
      rw [hfil]; exact foldl_chooseEarlier_mem l a
    have hq := List.mem_filter.mp hmem
    have h2 : nextFilter site ts gap (l.foldl chooseEarlier a) = true := hq.2
    unfold nextFilter at h2
    have hprop := of_decide_eq_true h2
    refine ⟨hq.1, hprop.1, hprop.2.1, hprop.2.2, ?_⟩
    intro x hx hsite hle hgap
    have hxf : x ∈ db.rows.filter (nextFilter site ts gap) := by
      refine List.mem_filter.mpr ⟨hx, ?_⟩
      unfold nextFilter
      exact decide_eq_true ⟨hsite, hle, hgap⟩
    rw [hfil] at hxf
    obtain ⟨h1, h2⟩ := foldl_chooseEarlier_ts l a
    rcases List.mem_cons.mp hxf with rfl | hxl
    · exact h1
    · exact h2 x hxl

theorem SQL_NEXT_WITHIN_GAP_none {db : DB} {site : String} {ts gap : Int}
    (h : SQL_NEXT_WITHIN_GAP db site ts gap = none) :
    ∀ x ∈ db.rows, ¬(x.site = site ∧ ts ≤ x.ts ∧ x.ts - ts ≤ gap) := by
  intro x hx hq
  unfold SQL_NEXT_WITHIN_GAP firstMinByTs at h
  rcases hfil : db.rows.filter (nextFilter site ts gap) with - | ⟨a, l⟩
  · have : x ∈ db.rows.filter (nextFilter site ts gap) := by
      refine List.mem_filter.mpr ⟨hx, ?_⟩
      unfold nextFilter
      exact decide_eq_true hq
    rw [hfil] at this
    exact absurd this (by simp)
  · rw [hfil] at h; exact absurd h (by simp)

theorem find_none_of_no_neighbor {db : DB} {site : String} {ts gap : Int}
    (h : ∀ r ∈ db.rows, r.site = site →
      ¬((r.ts ≤ ts ∧ ts - r.ts ≤ gap) ∨ (ts ≤ r.ts ∧ r.ts - ts ≤ gap))) :
    find_existing_session_within_gap db site ts gap = none := by
  unfold find_existing_session_within_gap
  rcases hp : SQL_PREV_WITHIN_GAP db site ts gap with - | r
  · rcases hn : SQL_NEXT_WITHIN_GAP db site ts gap with - | r
    · rfl
    · obtain ⟨hmem, hsite, hle, hgap, -⟩ := SQL_NEXT_WITHIN_GAP_some hn
      exact absurd (Or.inr ⟨hle, hgap⟩) (h r hmem hsite)
  · obtain ⟨hmem, hsite, hle, hgap, -⟩ := SQL_PREV_WITHIN_GAP_some hp
    exact absurd (Or.inl ⟨hle, hgap⟩) (h r hmem hsite)

theorem ensure_mint {db : DB} {site : String} {ts gap : Int}
    (h : find_existing_session_within_gap db site ts gap = none) :
    ensure_session_and_index db site ts gap
      = (⟨db.nextId, ts, 1⟩, { db with nextId := db.nextId + 1 }) := by
  unfold ensure_session_and_index
  rw [h]

/-- Store with a single qualifying session member at time 10, used as the
failing input of claim C2. -/
def c2Row : Row :=
  { site := "GG", ts := 10, sessionId := 0, sessionStart := 10,
    sessionIndex := 1, notes := none, modifiedAt := false, hash := 0 }

def c2DB : DB := { rows := [c2Row], nextId := 1 }

/-- C2 (code bug evaluated): inserting an event at time 5 into a session
whose only existing member is at time 10 (gap 10, the session is found via
the successor query) returns and stores session start 10 — the minimum over
the pre-existing members only — although the minimum over all members
including the new event is 5.  The member list after the insert has
timestamps 10 and 5 but both rows record session start 10, so the session's
recorded start is not the new minimum, contradicting the claim and the
code's own comment that the session start should be the earliest tournament
in the session. -/
theorem c2_session_start_excludes_new_event :
    (ensure_session_and_index c2DB "GG" 5 10).1 = ⟨0, 10, 1⟩ ∧
      (insertEvent c2DB "GG" 5 10 0).rows.map
          (fun r => (r.ts, r.sessionStart, r.sessionIndex))
        = [(10, 10, 2), (5, 10, 1)] := by
  decide

/-- C7: an event farther than the gap from every same-site member mints a
brand-new session id (not equal to any stored one), with session start
equal to the event timestamp and ordinal index 1; and with gap 0 a session
is found precisely when some same-site member has exactly the event's
timestamp. -/
theorem c7_new_session_when_far (db : DB) (site : String) (ts gap_minutes : Int)
    (hfresh : ∀ r ∈ db.rows, r.sessionId < db.nextId) :
    ((∀ r ∈ db.rows, r.site = site →
        gap_minutes < ts - r.ts ∨ gap_minutes < r.ts - ts) →
      ensure_session_and_index db site ts gap_minutes
          = (⟨db.nextId, ts, 1⟩, { db with nextId := db.nextId + 1 }) ∧
        ∀ r ∈ db.rows, r.sessionId ≠ db.nextId) ∧
      (gap_minutes = 0 →
        ((find_existing_session_within_gap db site ts 0).isSome
          ↔ ∃ r ∈ db.rows, r.site = site ∧ r.ts = ts)) := by
  constructor
  · intro hfar
    have hnone : find_existing_session_within_gap db site ts gap_minutes = none := by
      apply find_none_of_no_neighbor
      intro r hmem hsite hq
      rcases hfar r hmem hsite with h | h <;> rcases hq with ⟨h1, h2⟩ | ⟨h1, h2⟩ <;> omega
    refine ⟨ensure_mint hnone, ?_⟩
    intro r hmem
    exact Nat.ne_of_lt (hfresh r hmem)
  · intro hgap0
    constructor
    · intro hsome
      unfold find_existing_session_within_gap at hsome
      rcases hp : SQL_PREV_WITHIN_GAP db site ts 0 with - | r
      · rcases hn : SQL_NEXT_WITHIN_GAP db site ts 0 with - | r
        · rw [hp, hn] at hsome
          simp at hsome
        · obtain ⟨hmem, hsite, hle, hg, -⟩ := SQL_NEXT_WITHIN_GAP_some hn
          exact ⟨r, hmem, hsite, by omega⟩
      · obtain ⟨hmem, hsite, hle, hg, -⟩ := SQL_PREV_WITHIN_GAP_some hp
        exact ⟨r, hmem, hsite, by omega⟩
    · rintro ⟨r, hmem, hsite, hts⟩
      unfold find_existing_session_within_gap
      rcases hp : SQL_PREV_WITHIN_GAP db site ts 0 with - | x
      · have := SQL_PREV_WITHIN_GAP_none hp r hmem
        exact absurd ⟨hsite, by omega, by omega⟩ this
      · rfl

/-- Witness store for C7: one member at time 0, far from event time 100
with gap 3. -/
def c7Row : Row :=
  { site := "GG", ts := 0, sessionId := 0, sessionStart := 0,
    sessionIndex := 1, notes := none, modifiedAt := false, hash := 0 }

def c7DB : DB := { rows := [c7Row], nextId := 1 }

theorem c7_new_session_when_far_witness :
    ensure_session_and_index c7DB "GG" 100 3
      = (⟨1, 100, 1⟩, { rows := c7DB.rows, nextId := 2 }) := by
  exact ((c7_new_session_when_far c7DB "GG" 100 3 (by decide)).1 (by decide)).1

/-- C8: whenever a qualifying predecessor exists, the session returned is
that of the chronologically nearest qualifying predecessor — regardless of
any qualifying successor, even a strictly closer one; only when no
predecessor qualifies is the nearest qualifying successor's session
returned. -/
theorem c8_predecessor_wins (db : DB) (site : String) (ts gap_minutes : Int) :
    ((∃ r ∈ db.rows, r.site = site ∧ r.ts ≤ ts ∧ ts - r.ts ≤ gap_minutes) →
      ∃ rp ∈ db.rows, rp.site = site ∧ rp.ts ≤ ts ∧ ts - rp.ts ≤ gap_minutes ∧
        (∀ x ∈ db.rows, x.site = site → x.ts ≤ ts → ts - x.ts ≤ gap_minutes →
          x.ts ≤ rp.ts) ∧
        find_existing_session_within_gap db site ts gap_minutes
          = some (rp.sessionId, rp.sessionStart)) ∧
      ((¬∃ r ∈ db.rows, r.site = site ∧ r.ts ≤ ts ∧ ts - r.ts ≤ gap_minutes) →
        (∃ r ∈ db.rows, r.site = site ∧ ts ≤ r.ts ∧ r.ts - ts ≤ gap_minutes) →
        ∃ rn ∈ db.rows, rn.site = site ∧ ts ≤ rn.ts ∧ rn.ts - ts ≤ gap_minutes ∧
          (∀ x ∈ db.rows, x.site = site → ts ≤ x.ts → x.ts - ts ≤ gap_minutes →
            rn.ts ≤ x.ts) ∧
          find_existing_session_within_gap db site ts gap_minutes
            = some (rn.sessionId, rn.sessionStart)) := by
  constructor
  · rintro ⟨r, hmem, hsite, hle, hgap⟩
    rcases hp : SQL_PREV_WITHIN_GAP db site ts gap_minutes with - | rp
    · exact absurd ⟨hsite, hle, hgap⟩ (SQL_PREV_WITHIN_GAP_none hp r hmem)
    · obtain ⟨hmem2, hsite2, hle2, hgap2, hmax⟩ := SQL_PREV_WITHIN_GAP_some hp
      refine ⟨rp, hmem2, hsite2, hle2, hgap2, hmax, ?_⟩
      unfold find_existing_session_within_gap
      rw [hp]
  · rintro hnoprev ⟨r, hmem, hsite, hle, hgap⟩
    have hp : SQL_PREV_WITHIN_GAP db site ts gap_minutes = none := by
      rcases hp : SQL_PREV_WITHIN_GAP db site ts gap_minutes with - | rp
      · rfl
      · obtain ⟨hmem2, hsite2, hle2, hgap2, -⟩ := SQL_PREV_WITHIN_GAP_some hp
        exact absurd ⟨rp, hmem2, hsite2, hle2, hgap2⟩ hnoprev
    rcases hn : SQL_NEXT_WITHIN_GAP db site ts gap_minutes with - | rn
    · exact absurd ⟨hsite, hle, hgap⟩ (SQL_NEXT_WITHIN_GAP_none hn r hmem)
    · obtain ⟨hmem2, hsite2, hle2, hgap2, hmin⟩ := SQL_NEXT_WITHIN_GAP_some hn
      refine ⟨rn, hmem2, hsite2, hle2, hgap2, hmin, ?_⟩
      unfold find_existing_session_within_gap
      rw [hp, hn]

/-- Witness store for C8: a qualifying predecessor at distance 5 and a
strictly closer qualifying successor at distance 2 from event time 10. -/
def c8PrevRow : Row :=
  { site := "GG", ts := 5, sessionId := 0, sessionStart := 5,
    sessionIndex := 1, notes := none, modifiedAt := false, hash := 0 }

def c8NextRow : Row :=
  { site := "GG", ts := 12, sessionId := 7, sessionStart := 12,
    sessionIndex := 1, notes := none, modifiedAt := false, hash := 1 }

def c8DB : DB := { rows := [c8PrevRow, c8NextRow], nextId := 8 }

theorem c8_predecessor_wins_witness :
    (∃ r ∈ c8DB.rows, r.site = "GG" ∧ r.ts ≤ 10 ∧ 10 - r.ts ≤ 10) ∧
      (find_existing_session_within_gap c8DB "GG" 10 10).isSome = true := by
  refine ⟨⟨c8PrevRow, by decide, by decide⟩, ?_⟩
  obtain ⟨rp, -, -, -, -, -, heq⟩ :=
    (c8_predecessor_wins c8DB "GG" 10 10).1 ⟨c8PrevRow, by decide, by decide⟩
  rw [heq]
  rfl

/-- C10: when no same-site member lies within the gap on either side,
`ensure_session_and_index` performs no update and no insert: every stored
row (indices, notes, modification flags included) is returned unchanged,
and the result is a fresh id, the event timestamp, and index 1. -/
theorem c10_no_writes_when_no_qualifying_session (db : DB) (site : String)
    (ts gap_minutes : Int)
    (h : ∀ r ∈ db.rows, r.site = site →
      ¬((r.ts ≤ ts ∧ ts - r.ts ≤ gap_minutes) ∨
        (ts ≤ r.ts ∧ r.ts - ts ≤ gap_minutes))) :
    (ensure_session_and_index db site ts gap_minutes).2.rows = db.rows ∧
      (ensure_session_and_index db site ts gap_minutes).1
        = ⟨db.nextId, ts, 1⟩ := by
  have hnone := find_none_of_no_neighbor h
  rw [ensure_mint hnone]
  exact ⟨rfl, rfl⟩

theorem c10_no_writes_when_no_qualifying_session_witness :
    (ensure_session_and_index c7DB "GG" 100 3).2.rows = c7DB.rows ∧
      (ensure_session_and_index c7DB "GG" 100 3).1 = ⟨1, 100, 1⟩ := by
  exact c10_no_writes_when_no_qualifying_session c7DB "GG" 100 3 (by decide)

/-- All stored members of one session (rows sharing the session id). -/
def sessionRows (rows : List Row) (sid : Nat) : List Row :=
  rows.filter (fun r => decide (r.sessionId = sid))

/-- Well-formedness of one session's member list: ordinal indices are
pairwise distinct, lie in `1..N` for `N` members, and strictly increase
with strictly increasing start timestamp. -/
def SessionOK (g : List Row) : Prop :=
  (g.map (·.sessionIndex)).Nodup ∧
    (∀ r ∈ g, 1 ≤ r.sessionIndex ∧ r.sessionIndex ≤ g.length) ∧
    (∀ r ∈ g, ∀ s ∈ g, r.ts < s.ts → r.sessionIndex < s.sessionIndex)

/-- Store invariant maintained by the assign-then-insert pipeline: session
ids are below the fresh counter, a session id determines the site, and each
stored session is well-formed. -/
def StoreInv (db : DB) : Prop :=
  (∀ r ∈ db.rows, r.sessionId < db.nextId) ∧
    (∀ r ∈ db.rows, ∀ s ∈ db.rows, r.sessionId = s.sessionId → r.site = s.site) ∧
    (∀ r ∈ db.rows, SessionOK (sessionRows db.rows r.sessionId))

theorem sessionOK_nil : SessionOK [] := by
  refine ⟨List.nodup_nil, ?_, ?_⟩ <;> intro r hr <;> simp at hr

theorem sessionOK_singleton (r : Row) (h : r.sessionIndex = 1) : SessionOK [r] := by
  refine ⟨by simp, ?_, ?_⟩
  · intro x hx
    rw [List.mem_singleton] at hx
    subst hx
    simp [h]
  · intro x hx y hy hlt
    rw [List.mem_singleton] at hx hy
    subst hx; subst hy
    omega

theorem nodup_length_le (l : List Nat) (hnd : l.Nodup) (a b : Nat)
    (hb : ∀ x ∈ l, a ≤ x ∧ x ≤ b) : l.length ≤ b + 1 - a := by
  have hsub : l.toFinset ⊆ Finset.Icc a b := by
    intro x hx
    rw [List.mem_toFinset] at hx
    exact Finset.mem_Icc.mpr (hb x hx)
  have hcard := Finset.card_le_card hsub
  rwa [List.toFinset_card_of_nodup hnd, Nat.card_Icc] at hcard

theorem sessionOK_of_inv {db : DB} (hinv : StoreInv db) (sid : Nat) :
    SessionOK (sessionRows db.rows sid) := by
  by_cases hemp : sessionRows db.rows sid = []
  · rw [hemp]; exact sessionOK_nil
  · obtain ⟨a, hmem⟩ := List.exists_mem_of_ne_nil _ hemp
    have hina := List.mem_filter.mp hmem
    have hsid : a.sessionId = sid := of_decide_eq_true hina.2
    have := hinv.2.2 a hina.1
    rwa [hsid] at this

theorem filter_lt_add_filter_ge (g : List Row) (t : Int) :
    g.length = (g.filter (fun x => decide (x.ts < t))).length +
      (g.filter (fun x => decide (t ≤ x.ts))).length := by
  have h1 := List.length_eq_length_filter_add (l := g) (fun x => decide (x.ts < t))
  have h2 : g.filter (fun x => !decide (x.ts < t))
      = g.filter (fun x => decide (t ≤ x.ts)) := by
    apply List.filter_congr
    intro x hx
    rcases lt_or_le x.ts t with hxt | hxt
    · rw [decide_eq_true hxt, decide_eq_false (by omega)]
      rfl
    · rw [decide_eq_false (by omega), decide_eq_true hxt]
      rfl
  rw [h2] at h1
  exact h1

/-- Pigeonhole consequences of `SessionOK`: the members strictly before a
cut timestamp occupy exactly the low indices — every such member has index
at most their count, and every member at or after the cut has index
strictly above that count. -/
theorem index_split {g : List Row} (hok : SessionOK g) (t : Int) :
    (∀ r ∈ g, r.ts < t →
        r.sessionIndex ≤ (g.filter (fun x => decide (x.ts < t))).length) ∧
      (∀ r ∈ g, t ≤ r.ts →
        (g.filter (fun x => decide (x.ts < t))).length < r.sessionIndex) := by
  obtain ⟨hnd, hbd, hmono⟩ := hok
  have hpart := filter_lt_add_filter_ge g t
  have hndE : ((g.filter (fun x => decide (x.ts < t))).map (·.sessionIndex)).Nodup :=
    List.Nodup.sublist (List.Sublist.map _ (List.filter_sublist g)) hnd
  have hndL : ((g.filter (fun x => decide (t ≤ x.ts))).map (·.sessionIndex)).Nodup :=
    List.Nodup.sublist (List.Sublist.map _ (List.filter_sublist g)) hnd
  constructor
  · intro r0 hr0 hlt
    have hkey : (r0.sessionIndex ::
        (g.filter (fun x => decide (t ≤ x.ts))).map (·.sessionIndex)).length
          ≤ g.length + 1 - r0.sessionIndex := by
      apply nodup_length_le
      · rw [List.nodup_cons]
        refine ⟨?_, hndL⟩
        intro hin
        obtain ⟨x, hxL, hxe⟩ := List.mem_map.mp hin
        have hxf := List.mem_filter.mp hxL
        have hxts : t ≤ x.ts := of_decide_eq_true hxf.2
        have := hmono r0 hr0 x hxf.1 (by omega)
        omega
      · intro y hy
        rcases List.mem_cons.mp hy with rfl | hy
        · exact ⟨le_refl _, (hbd r0 hr0).2⟩
        · obtain ⟨x, hxL, hxe⟩ := List.mem_map.mp hy
          have hxf := List.mem_filter.mp hxL
          have hxts : t ≤ x.ts := of_decide_eq_true hxf.2
          have h1 := hmono r0 hr0 x hxf.1 (by omega)
          have h2 := (hbd x hxf.1).2
          omega
    rw [List.length_cons, List.length_map] at hkey
    have h1 := (hbd r0 hr0).1
    have h2 := (hbd r0 hr0).2
    omega
  · intro r0 hr0 hge
    have hkey : (r0.sessionIndex ::
        (g.filter (fun x => decide (x.ts < t))).map (·.sessionIndex)).length
          ≤ r0.sessionIndex + 1 - 1 := by
      apply nodup_length_le (a := 1) (b := r0.sessionIndex)
      · rw [List.nodup_cons]
        refine ⟨?_, hndE⟩
        intro hin
        obtain ⟨x, hxE, hxe⟩ := List.mem_map.mp hin
        have hxf := List.mem_filter.mp hxE
        have hxts : x.ts < t := of_decide_eq_true hxf.2
        have := hmono x hxf.1 r0 hr0 (by omega)
        omega
      · intro y hy
        rcases List.mem_cons.mp hy with rfl | hy
        · exact ⟨(hbd r0 hr0).1, le_refl _⟩
        · obtain ⟨x, hxE, hxe⟩ := List.mem_map.mp hy
          have hxf := List.mem_filter.mp hxE
          have hxts : x.ts < t := of_decide_eq_true hxf.2
          have h1 := hmono x hxf.1 r0 hr0 (by omega)
          have h2 := (hbd x hxf.1).1
          omega
    rw [List.length_cons, List.length_map] at hkey
    have h1 := (hbd r0 hr0).1
    omega

theorem bumpRow_sessionId (site : String) (sid : Nat) (ts : Int) (r : Row) :
    (bumpRow site sid ts r).sessionId = r.sessionId := by
  unfold bumpRow
  split <;> rfl

theorem bumpRow_site (site : String) (sid : Nat) (ts : Int) (r : Row) :
    (bumpRow site sid ts r).site = r.site := by
  unfold bumpRow
  split <;> rfl

theorem bumpRow_ts (site : String) (sid : Nat) (ts : Int) (r : Row) :
    (bumpRow site sid ts r).ts = r.ts := by
  unfold bumpRow
  split <;> rfl

theorem bumpRow_hash (site : String) (sid : Nat) (ts : Int) (r : Row) :
    (bumpRow site sid ts r).hash = r.hash := by
  unfold bumpRow
  split <;> rfl

theorem sessionRows_append (rows1 rows2 : List Row) (sid : Nat) :
    sessionRows (rows1 ++ rows2) sid = sessionRows rows1 sid ++ sessionRows rows2 sid := by
  unfold sessionRows
  exact List.filter_append _ _

theorem sessionRows_map_bump (rows : List Row) (site : String) (sid : Nat)
    (ts : Int) (sid' : Nat) :
    sessionRows (rows.map (bumpRow site sid ts)) sid'
      = (sessionRows rows sid').map (bumpRow site sid ts) := by
  unfold sessionRows
  rw [List.filter_map]
  congr 1
  apply List.filter_congr
  intro x hx
  simp only [Function.comp_apply, bumpRow_sessionId]

theorem map_bump_id_of_ne (l : List Row) (site : String) (sid : Nat) (ts : Int)
    (h : ∀ r ∈ l, r.sessionId ≠ sid) :
    l.map (bumpRow site sid ts) = l := by
  have h2 : ∀ r ∈ l, bumpRow site sid ts r = r := by
    intro r hr
    unfold bumpRow
    rw [if_neg]
    intro hc
    exact h r hr hc.2.1
  calc l.map (bumpRow site sid ts) = l.map id := List.map_congr_left h2
    _ = l := List.map_id l

theorem find_some_mem {db : DB} {site : String} {ts gap : Int} {sid : Nat} {sstart : Int}
    (h : find_existing_session_within_gap db site ts gap = some (sid, sstart)) :
    ∃ r0 ∈ db.rows, r0.sessionId = sid ∧ r0.site = site := by
  unfold find_existing_session_within_gap at h
  rcases hp : SQL_PREV_WITHIN_GAP db site ts gap with - | r
  · rw [hp] at h
    rcases hn : SQL_NEXT_WITHIN_GAP db site ts gap with - | r
    · rw [hn] at h
      exact absurd h (by simp)
    · rw [hn] at h
      obtain ⟨hmem, hsite, -, -, -⟩ := SQL_NEXT_WITHIN_GAP_some hn
      simp only [Option.some.injEq, Prod.mk.injEq] at h
      exact ⟨r, hmem, h.1, hsite⟩
  · rw [hp] at h
    obtain ⟨hmem, hsite, -, -, -⟩ := SQL_PREV_WITHIN_GAP_some hp
    simp only [Option.some.injEq, Prod.mk.injEq] at h
    exact ⟨r, hmem, h.1, hsite⟩

theorem count_before_eq (db : DB) (site : String) (sid : Nat) (ts : Int)
    (hallsite : ∀ r ∈ db.rows, r.sessionId = sid → r.site = site) :
    SQL_COUNT_BEFORE_IN_SESSION db site sid ts
      = ((sessionRows db.rows sid).filter (fun x => decide (x.ts < ts))).length := by
  unfold SQL_COUNT_BEFORE_IN_SESSION sessionRows
  rw [List.filter_filter]
  congr 1
  apply List.filter_congr
  intro x hx
  rcases em (x.sessionId = sid) with hsid | hsid
  · have hsite := hallsite x hx hsid
    rcases lt_or_le x.ts ts with hts | hts
    · rw [decide_eq_true ⟨hsite, hsid, hts⟩, decide_eq_true hsid, decide_eq_true hts,
        Bool.and_self]
    · rw [decide_eq_false (fun hc => absurd hc.2.2 (by omega)), decide_eq_true hsid,
        decide_eq_false (show ¬x.ts < ts by omega), Bool.false_and]
  · rw [decide_eq_false (fun hc => hsid hc.2.1), decide_eq_false hsid, Bool.and_false]

/-- Inserting a new member and bumping the at-or-after members keeps one
session's member list well-formed: the new member takes index `k + 1` for
`k` members strictly before it, the bumped members move out of its way. -/
theorem sessionOK_insert_group (g : List Row) (hok : SessionOK g)
    (site : String) (sid : Nat) (ts : Int) (newRow : Row)
    (hallsite : ∀ r ∈ g, r.site = site) (hallsid : ∀ r ∈ g, r.sessionId = sid)
    (hnewts : newRow.ts = ts)
    (hnewidx : newRow.sessionIndex
      = (g.filter (fun x => decide (x.ts < ts))).length + 1) :
    SessionOK (g.map (bumpRow site sid ts) ++ [newRow]) := by
  obtain ⟨hnd, hbd, hmono⟩ := hok
  obtain ⟨hE, hL⟩ := index_split ⟨hnd, hbd, hmono⟩ ts
  have hinj : ∀ x ∈ g, ∀ y ∈ g, x.sessionIndex = y.sessionIndex → x = y :=
    List.inj_on_of_nodup_map hnd
  have hfi : ∀ r ∈ g, (bumpRow site sid ts r).sessionIndex
      = if ts ≤ r.ts then r.sessionIndex + 1 else r.sessionIndex := by
    intro r hr
    unfold bumpRow
    by_cases hts : ts ≤ r.ts
    · rw [if_pos ⟨hallsite r hr, hallsid r hr, hts⟩, if_pos hts]
    · rw [if_neg (fun hc => hts hc.2.2), if_neg hts]
  have hndA : ((g.map (bumpRow site sid ts)).map (·.sessionIndex)).Nodup := by
    rw [List.map_map]
    apply List.Nodup.map_on ?_ (List.Nodup.of_map _ hnd)
    intro x hx y hy hxy
    simp only [Function.comp_apply] at hxy
    rw [hfi x hx, hfi y hy] at hxy
    apply hinj x hx y hy
    by_cases hxt : ts ≤ x.ts <;> by_cases hyt : ts ≤ y.ts
    · rw [if_pos hxt, if_pos hyt] at hxy; omega
    · rw [if_pos hxt, if_neg hyt] at hxy
      have h1 := hL x hx hxt
      have h2 := hE y hy (by omega)
      omega
    · rw [if_neg hxt, if_pos hyt] at hxy
      have h1 := hE x hx (by omega)
      have h2 := hL y hy hyt
      omega
    · rw [if_neg hxt, if_neg hyt] at hxy; omega
  have hnotmem : newRow.sessionIndex
      ∉ (g.map (bumpRow site sid ts)).map (·.sessionIndex) := by
    intro hin
    rw [List.map_map] at hin
    obtain ⟨x, hxg, hxe⟩ := List.mem_map.mp hin
    simp only [Function.comp_apply] at hxe
    rw [hfi x hxg] at hxe
    by_cases hxt : ts ≤ x.ts
    · rw [if_pos hxt] at hxe
      have := hL x hxg hxt
      omega
    · rw [if_neg hxt] at hxe
      have := hE x hxg (by omega)
      omega
  refine ⟨?_, ?_, ?_⟩
  · rw [List.map_append]
    apply List.Nodup.append hndA (by simp)
    intro a ha hb
    simp only [List.map_cons, List.map_nil, List.mem_singleton] at hb
    subst hb
    exact hnotmem ha
  · intro r hr
    have hlen : (g.map (bumpRow site sid ts) ++ [newRow]).length = g.length + 1 := by
      simp
    rw [hlen]
    have hkN : (g.filter (fun x => decide (x.ts < ts))).length ≤ g.length :=
      List.length_filter_le _ g
    rcases List.mem_append.mp hr with hr | hr
    · obtain ⟨x, hxg, rfl⟩ := List.mem_map.mp hr
      rw [hfi x hxg]
      have := hbd x hxg
      by_cases hxt : ts ≤ x.ts
      · rw [if_pos hxt]; omega
      · rw [if_neg hxt]; omega
    · rw [List.mem_singleton] at hr
      subst hr
      omega
  · intro x hx y hy hlt
    rcases List.mem_append.mp hx with hx | hx <;> rcases List.mem_append.mp hy with hy | hy
    · obtain ⟨a, hag, rfl⟩ := List.mem_map.mp hx
      obtain ⟨b, hbg, rfl⟩ := List.mem_map.mp hy
      rw [bumpRow_ts site sid ts a, bumpRow_ts site sid ts b] at hlt
      rw [hfi a hag, hfi b hbg]
      have hab := hmono a hag b hbg hlt
      by_cases hat : ts ≤ a.ts <;> by_cases hbt : ts ≤ b.ts
      · rw [if_pos hat, if_pos hbt]; omega
      · rw [if_pos hat, if_neg hbt]; omega
      · rw [if_neg hat, if_pos hbt]
        have h1 := hE a hag (by omega)
        have h2 := hL b hbg hbt
        omega
      · rw [if_neg hat, if_neg hbt]; omega
    · rw [List.mem_singleton] at hy
      obtain ⟨a, hag, rfl⟩ := List.mem_map.mp hx
      rw [hy] at hlt ⊢
      rw [bumpRow_ts site sid ts a, hnewts] at hlt
      rw [hfi a hag, if_neg (by omega), hnewidx]
      have := hE a hag hlt
      omega
    · rw [List.mem_singleton] at hx
      obtain ⟨b, hbg, rfl⟩ := List.mem_map.mp hy
      rw [hx] at hlt ⊢
      rw [hnewts, bumpRow_ts site sid ts b] at hlt
      rw [hfi b hbg, if_pos (by omega), hnewidx]
      have := hL b hbg (by omega)
      omega
    · rw [List.mem_singleton] at hx hy
      rw [hx, hy] at hlt
      omega

theorem ensure_join_eq {db : DB} {site : String} {ts gap : Int} {sid : Nat} {sstart : Int}
    (hfound : find_existing_session_within_gap db site ts gap = some (sid, sstart)) :
    ensure_session_and_index db site ts gap
      = (⟨sid,
          (match SQL_MIN_SESSION_START (SQL_BUMP_INDICES_AT_OR_AFTER_TS db site sid ts)
              site sid with
           | some m => m
           | none => sstart),
          SQL_COUNT_BEFORE_IN_SESSION db site sid ts + 1⟩,
         SQL_BUMP_INDICES_AT_OR_AFTER_TS db site sid ts) := by
  unfold ensure_session_and_index
  rw [hfound]

theorem sessionRows_singleton (r : Row) (sid : Nat) :
    sessionRows [r] sid = if r.sessionId = sid then [r] else [] := by
  unfold sessionRows
  by_cases h : r.sessionId = sid <;> simp [h]

theorem storeInv_append_fresh (db : DB) (newRow : Row) (hinv : StoreInv db)
    (hsid : newRow.sessionId = db.nextId) (hidx : newRow.sessionIndex = 1) :
    StoreInv { rows := db.rows ++ [newRow], nextId := db.nextId + 1 } := by
  obtain ⟨hid, hcoh, hgroups⟩ := hinv
  have hnotold : ∀ r ∈ db.rows, r.sessionId ≠ newRow.sessionId := by
    intro r hr
    rw [hsid]
    exact Nat.ne_of_lt (hid r hr)
  refine ⟨?_, ?_, ?_⟩
  · intro r hr
    rcases List.mem_append.mp hr with hr | hr
    · exact Nat.lt_succ_of_lt (hid r hr)
    · rw [List.mem_singleton] at hr
      rw [hr, hsid]
      show db.nextId < db.nextId + 1
      omega
  · intro r hr s hs heq
    rcases List.mem_append.mp hr with hr | hr <;> rcases List.mem_append.mp hs with hs | hs
    · exact hcoh r hr s hs heq
    · rw [List.mem_singleton] at hs
      rw [hs] at heq
      exact absurd heq (hnotold r hr)
    · rw [List.mem_singleton] at hr
      rw [hr] at heq
      exact absurd heq.symm (hnotold s hs)
    · rw [List.mem_singleton] at hr hs
      rw [hr, hs]
  · intro r hr
    have hsplit : ∀ s, sessionRows (db.rows ++ [newRow]) s
        = sessionRows db.rows s ++ sessionRows [newRow] s := by
      intro s
      exact sessionRows_append db.rows [newRow] s
    rcases List.mem_append.mp hr with hr | hr
    · have hne : newRow.sessionId ≠ r.sessionId := fun hc => hnotold r hr hc.symm
      rw [hsplit, sessionRows_singleton, if_neg hne, List.append_nil]
      exact hgroups r hr
    · rw [List.mem_singleton] at hr
      rw [hr]
      have hold : sessionRows db.rows newRow.sessionId = [] := by
        unfold sessionRows
        rw [List.filter_eq_nil_iff]
        intro a ha
        simp only [decide_eq_true_eq]
        exact fun hc => hnotold a ha hc
      rw [hsplit, hold, sessionRows_singleton, if_pos rfl, List.nil_append]
      exact sessionOK_singleton newRow hidx

theorem storeInv_join (db : DB) (site : String) (ts : Int) (sid : Nat) (newRow : Row)
    (hinv : StoreInv db)
    (hexists : ∃ r0 ∈ db.rows, r0.sessionId = sid ∧ r0.site = site)
    (hnsite : newRow.site = site) (hnts : newRow.ts = ts)
    (hnsid : newRow.sessionId = sid)
    (hnidx : newRow.sessionIndex = SQL_COUNT_BEFORE_IN_SESSION db site sid ts + 1) :
    StoreInv { rows := db.rows.map (bumpRow site sid ts) ++ [newRow],
               nextId := db.nextId } := by
  obtain ⟨hid, hcoh, hgroups⟩ := hinv
  obtain ⟨r0, hr0, hr0sid, hr0site⟩ := hexists
  have hallsite : ∀ r ∈ db.rows, r.sessionId = sid → r.site = site := by
    intro r hr hrs
    have := hcoh r hr r0 hr0 (by rw [hrs, hr0sid])
    rwa [hr0site] at this
  have hgsid : ∀ r ∈ sessionRows db.rows sid, r.sessionId = sid := by
    intro r hr
    exact of_decide_eq_true (List.mem_filter.mp hr).2
  have hgsite : ∀ r ∈ sessionRows db.rows sid, r.site = site := by
    intro r hr
    exact hallsite r (List.mem_filter.mp hr).1 (hgsid r hr)
  have hcount : SQL_COUNT_BEFORE_IN_SESSION db site sid ts
      = ((sessionRows db.rows sid).filter (fun x => decide (x.ts < ts))).length :=
    count_before_eq db site sid ts hallsite
  have hOKnew := sessionOK_insert_group (sessionRows db.rows sid)
    (sessionOK_of_inv ⟨hid, hcoh, hgroups⟩ sid) site sid ts newRow hgsite hgsid hnts
    (by rw [hnidx, hcount])
  have hsplit : ∀ s, sessionRows (db.rows.map (bumpRow site sid ts) ++ [newRow]) s
      = (sessionRows db.rows s).map (bumpRow site sid ts) ++ sessionRows [newRow] s := by
    intro s
    rw [sessionRows_append, sessionRows_map_bump]
  refine ⟨?_, ?_, ?_⟩
  · intro r hr
    rcases List.mem_append.mp hr with hr | hr
    · obtain ⟨a, hag, rfl⟩ := List.mem_map.mp hr
      rw [bumpRow_sessionId]
      exact hid a hag
    · rw [List.mem_singleton] at hr
      rw [hr, hnsid, ← hr0sid]
      show r0.sessionId < db.nextId
      exact hid r0 hr0
  · intro r hr s hs heq
    rcases List.mem_append.mp hr with hr | hr <;> rcases List.mem_append.mp hs with hs | hs
    · obtain ⟨a, hag, rfl⟩ := List.mem_map.mp hr
      obtain ⟨b, hbg, rfl⟩ := List.mem_map.mp hs
      rw [bumpRow_sessionId, bumpRow_sessionId] at heq
      rw [bumpRow_site, bumpRow_site]
      exact hcoh a hag b hbg heq
    · rw [List.mem_singleton] at hs
      obtain ⟨a, hag, rfl⟩ := List.mem_map.mp hr
      rw [hs] at heq ⊢
      rw [bumpRow_sessionId] at heq
      rw [bumpRow_site, hnsite]
      exact hallsite a hag (by rw [heq, hnsid])
    · rw [List.mem_singleton] at hr
      obtain ⟨b, hbg, rfl⟩ := List.mem_map.mp hs
      rw [hr] at heq ⊢
      rw [bumpRow_sessionId] at heq
      rw [bumpRow_site, hnsite]
      exact (hallsite b hbg (by rw [← heq, hnsid])).symm
    · rw [List.mem_singleton] at hr hs
      rw [hr, hs]
  · intro r hr
    by_cases hcase : r.sessionId = sid
    · rw [hcase, hsplit, sessionRows_singleton, if_pos hnsid]
      exact hOKnew
    · have hner : newRow.sessionId ≠ r.sessionId := by
        rw [hnsid]
        exact fun hc => hcase hc.symm
      rw [hsplit, sessionRows_singleton, if_neg hner, List.append_nil,
        map_bump_id_of_ne _ site sid ts]
      · rcases List.mem_append.mp hr with hr | hr
        · obtain ⟨a, hag, rfl⟩ := List.mem_map.mp hr
          rw [bumpRow_sessionId]
          rw [bumpRow_sessionId] at hcase
          exact hgroups a hag
        · rw [List.mem_singleton] at hr
          rw [hr] at hcase
          exact absurd hnsid hcase
      · intro x hx
        have hxs : x.sessionId = r.sessionId :=
          of_decide_eq_true (List.mem_filter.mp hx).2
        rw [hxs]
        exact hcase

theorem storeInv_insertEvent (db : DB) (site : String) (ts gap : Int) (fh : Nat)
    (hinv : StoreInv db) : StoreInv (insertEvent db site ts gap fh) := by
  unfold insertEvent
  rcases hfind : find_existing_session_within_gap db site ts gap with - | ⟨sid, sstart⟩
  · rw [ensure_mint hfind]
    exact storeInv_append_fresh db _ hinv rfl rfl
  · rw [ensure_join_eq hfind]
    exact storeInv_join db site ts sid _ hinv (find_some_mem hfind) rfl rfl rfl rfl

theorem storeInv_emptyDB : StoreInv emptyDB := by
  refine ⟨?_, ?_, ?_⟩ <;> intro r hr <;> simp [emptyDB] at hr

theorem storeInv_runEvents (evs : List (String × Int × Int × Nat)) :
    StoreInv (runEvents evs) := by
  have hstep : ∀ (l : List (String × Int × Int × Nat)) (db : DB), StoreInv db →
      StoreInv (l.foldl applyEvent db) := by
    intro l
    induction l with
    | nil => intro db h; exact h
    | cons e rest ih =>
      intro db h
      exact ih _ (storeInv_insertEvent db e.1 e.2.1 e.2.2.1 e.2.2.2 h)
  exact hstep evs emptyDB storeInv_emptyDB

/-- C1: after any sequence of `ensure_session_and_index` calls each followed
by the corresponding result insert — in any timestamp order — every
session's ordinal indices are exactly the set `1..N` for `N` members, with
no duplicates, and are ordered exactly like the member start timestamps. -/
theorem c1_session_indices_exactly_one_to_n
    (evs : List (String × Int × Int × Nat)) (sid : Nat) :
    (((sessionRows (runEvents evs).rows sid).map (·.sessionIndex)).toFinset
        = Finset.Icc 1 (sessionRows (runEvents evs).rows sid).length) ∧
      ((sessionRows (runEvents evs).rows sid).map (·.sessionIndex)).Nodup ∧
      (∀ r ∈ sessionRows (runEvents evs).rows sid,
        ∀ s ∈ sessionRows (runEvents evs).rows sid,
          (r.ts < s.ts → r.sessionIndex < s.sessionIndex) ∧
            (r.sessionIndex ≤ s.sessionIndex → r.ts ≤ s.ts)) := by
  have hok := sessionOK_of_inv (storeInv_runEvents evs) sid
  obtain ⟨hnd, hbd, hmono⟩ := hok
  refine ⟨?_, hnd, ?_⟩
  · apply Finset.eq_of_subset_of_card_le
    · intro x hx
      rw [List.mem_toFinset] at hx
      obtain ⟨r, hrg, rfl⟩ := List.mem_map.mp hx
      exact Finset.mem_Icc.mpr (hbd r hrg)
    · rw [List.toFinset_card_of_nodup hnd, List.length_map, Nat.card_Icc]
      omega
  · intro r hr s hs
    refine ⟨hmono r hr s hs, ?_⟩
    intro hle
    by_contra hlt
    push_neg at hlt
    have := hmono s hs r hr hlt
    omega

/-- Store with one member at time 10 in session 0, the input showing how
equal-timestamp ties are placed. -/
def c3Row : Row :=
  { site := "GG", ts := 10, sessionId := 0, sessionStart := 10,
    sessionIndex := 1, notes := none, modifiedAt := false, hash := 0 }

def c3DB : DB := { rows := [c3Row], nextId := 1 }

/-- C3 counterexample: inserting an event whose timestamp exactly equals
the single existing member's gives the new event ordinal index 1 while the
pre-existing equal-timestamp member is bumped to index 2 — the new event is
placed before, not after, the existing equal-timestamp member, refuting the
claim that the new event receives a higher ordinal index than every
existing member with the same timestamp. -/
theorem c3_counterexample_tie_goes_before :
    (ensure_session_and_index c3DB "GG" 10 0).1.session_tournament_index = 1 ∧
      (ensure_session_and_index c3DB "GG" 10 0).2.rows.map
          (fun r => (r.ts, r.sessionIndex)) = [(10, 2)] ∧
      ¬(2 < (ensure_session_and_index c3DB "GG" 10 0).1.session_tournament_index) := by
  decide

/-- C3 (amended): when an event joins an existing qualifying session its
ordinal index equals one plus the count of existing members strictly before
its timestamp, and an event whose timestamp exactly equals pre-existing
members' timestamps is placed before those members — every existing member
at or after the timestamp (equal timestamps included) is bumped to an
ordinal index strictly greater than the new event's. -/
theorem c3_amended_index_count_before_plus_one (db : DB) (site : String)
    (ts gap_minutes : Int) (sid : Nat) (sstart : Int) (hinv : StoreInv db)
    (hfound : find_existing_session_within_gap db site ts gap_minutes
      = some (sid, sstart)) :
    (ensure_session_and_index db site ts gap_minutes).1.session_tournament_index
        = SQL_COUNT_BEFORE_IN_SESSION db site sid ts + 1 ∧
      (ensure_session_and_index db site ts gap_minutes).2.rows
        = db.rows.map (bumpRow site sid ts) ∧
      ∀ r ∈ db.rows, r.sessionId = sid → ts ≤ r.ts →
        (bumpRow site sid ts r).sessionIndex = r.sessionIndex + 1 ∧
          (ensure_session_and_index db site ts gap_minutes).1.session_tournament_index
            < (bumpRow site sid ts r).sessionIndex := by
  rw [ensure_join_eq hfound]
  obtain ⟨r0, hr0, hr0sid, hr0site⟩ := find_some_mem hfound
  have hallsite : ∀ r ∈ db.rows, r.sessionId = sid → r.site = site := by
    intro r hr hrs
    have := hinv.2.1 r hr r0 hr0 (by rw [hrs, hr0sid])
    rwa [hr0site] at this
  refine ⟨rfl, rfl, ?_⟩
  intro r hr hrsid hrts
  have hsite := hallsite r hr hrsid
  have hbump : (bumpRow site sid ts r).sessionIndex = r.sessionIndex + 1 := by
    unfold bumpRow
    rw [if_pos ⟨hsite, hrsid, hrts⟩]
  refine ⟨hbump, ?_⟩
  rw [hbump]
  show SQL_COUNT_BEFORE_IN_SESSION db site sid ts + 1 < r.sessionIndex + 1
  have hrg : r ∈ sessionRows db.rows sid := by
    unfold sessionRows
    exact List.mem_filter.mpr ⟨hr, decide_eq_true hrsid⟩
  have hL := (index_split (sessionOK_of_inv hinv sid) ts).2 r hrg hrts
  have hcount := count_before_eq db site sid ts hallsite
  omega

theorem c3_amended_index_count_before_plus_one_witness :
    (ensure_session_and_index c3DB "GG" 10 0).1.session_tournament_index
        = SQL_COUNT_BEFORE_IN_SESSION c3DB "GG" 0 10 + 1 ∧
      (bumpRow "GG" 0 10 c3Row).sessionIndex = c3Row.sessionIndex + 1 ∧
      (ensure_session_and_index c3DB "GG" 10 0).1.session_tournament_index
        < (bumpRow "GG" 0 10 c3Row).sessionIndex := by
  have h := c3_amended_index_count_before_plus_one c3DB "GG" 10 0 0 10
    (by unfold StoreInv SessionOK; decide) (by decide)
  have h3 := h.2.2 c3Row (by decide) (by decide) (by decide)
  exact ⟨h.1, h3.1, h3.2⟩

/-- One match of `RE_TOURNAMENT_LINE` (named groups `tid`, `tname`, `gtype`). -/
structure TournamentLineMatch where
  tid : Nat
  tname : String
  gtype : String
deriving DecidableEq

/-- One match of `RE_PLACEMENT_LINE` (named groups `place`, `name`, `payout`). -/
structure PlacementMatch where
  place : Nat
  pname : String
  payoutToken : String
deriving DecidableEq

/-- Outcome of the regex layer of `GGSummaryParser.parse` on one input
text: one field per class-attribute regex, holding the named groups of the
match each search finds (or `none`), and all matches of the placement-line
regex in document order.  `startedTs` holds the `datetime.strptime` value
of the matched `dt` group in the integer time model.  The Python regex
engine is standard-library code outside this repository, so it is treated
as the external collaborator producing this record; theorems quantify over
all its possible outputs, hence over all input texts. -/
structure RegexMatches where
  tournamentLine : Option TournamentLineMatch
  buyInToken : Option String
  players : Option Nat
  poolToken : Option String
  startedTs : Option Int
  finishPlace : Option Nat
  placements : List PlacementMatch
deriving DecidableEq

/-- Python `str.strip()` on a character list (whitespace off both ends).
The core `String.trim` (and `splitOn`, `replace`) use well-founded
recursion over byte positions; these structurally recursive character-list
versions compute the same functions and evaluate inside the kernel. -/
def stripChars (cs : List Char) : List Char :=
  ((cs.dropWhile Char.isWhitespace).reverse.dropWhile Char.isWhitespace).reverse

/-- Python `str.strip()` as a `String` function. -/
def pyStrip (s : String) : String := String.mk (stripChars s.data)

/-- Python `str.lower()` (ASCII case folding, all the source compares are
ASCII). -/
def pyLower (s : String) : String := String.mk (s.data.map Char.toLower)

def dollarChar : Char := '$'
def commaChar : Char := ','
def dotChar : Char := '.'

def natOfDigits (cs : List Char) : Nat :=
  cs.foldl (fun a c => a * 10 + (c.toNat - 48)) 0

/-- The `re.fullmatch` on `\d+(\.\d+)?` inside `parse_money_usd`: one or
more digits, then optionally a dot and one or more digits. -/
def isMoneyNumber (cs : List Char) : Bool :=
  decide (cs.takeWhile Char.isDigit ≠ []) &&
    match cs.dropWhile Char.isDigit with
    | [] => true
    | c :: frac => decide (c = dotChar) && decide (frac ≠ []) && frac.all Char.isDigit

/-- Numeric value of a full-matched money number: integer part plus
fractional part over the matching power of ten.  Python `float` values are
modelled exactly as rationals; sums and quotients of rationals are built
with `mkRat` on raw numerators and denominators throughout this
development, because the core `Rat` arithmetic operations are
`@[irreducible]` and would block kernel evaluation — `mkRat a b` is the
same rational `a / b`. -/
def ratOfNumber (cs : List Char) : ℚ :=
  match cs.dropWhile Char.isDigit with
  | _ :: frac =>
    mkRat (natOfDigits (cs.takeWhile Char.isDigit) * 10 ^ frac.length + natOfDigits frac)
      (10 ^ frac.length)
  | [] => mkRat (natOfDigits (cs.takeWhile Char.isDigit)) 1

/-- Embedding of `parse_money_usd` from `src/importer/gg_summary_parser.py`:
strip, require a leading dollar sign, drop it, remove commas (`.replace`
with a one-character pattern and empty replacement removes every comma),
strip, full-match digits with an optional decimal part, and return the
value (`none` for anything that is not a cash dollar amount). -/
def parse_money_usd (token : String) : Option ℚ :=
  match stripChars token.data with
  | [] => none
  | c :: rest =>
    if ¬ (c = dollarChar) then none
    else
      let numberPart := stripChars (rest.filter (fun x => decide (x ≠ commaChar)))
      if isMoneyNumber numberPart then some (ratOfNumber numberPart) else none

/-- Python's `round(x, 2)` on the rational model: the floor of
`q * 100 + 1 / 2` (written as one `mkRat`) divided by `100`.  Ties at the
third decimal round half up here; Python's float rounding differs only on
exact half-cent floats, which no claim depends on. -/
def round2 (q : ℚ) : ℚ :=
  Rat.divInt (Rat.floor (mkRat (200 * q.num + (q.den : Int)) (2 * q.den))) 100

/-- Difference of two rationals, via `mkRat` (equal to subtraction; see
`ratOfNumber` on why the irreducible core operations are avoided). -/
def ratSub (a b : ℚ) : ℚ :=
  mkRat (a.num * (b.den : Int) - b.num * (a.den : Int)) (a.den * b.den)

/-- Embedding of the frozen `ParsedTournament` dataclass of
`src/importer/gg_summary_parser.py`. -/
structure ParsedTournament where
  site : String
  tournament_id : Nat
  tournament_start_ts_local : Int
  hero_name : String
  tournament_name : Option String
  game_type : Option String
  player_count : Option Nat
  currency : String
  buy_in_amount : ℚ
  prize_pool_amount : Option ℚ
  payout_amount : ℚ
  profit_amount : ℚ
  finish_place : Option Nat
deriving DecidableEq

/-- Result of the placement-line loop in `GGSummaryParser.parse`. -/
inductive HeroPayout
  | noLine
  | nonCash
  | cash (v : ℚ)
deriving DecidableEq

def heroLowered : String := "hero"

/-- The placement-line loop of `GGSummaryParser.parse`: take the first
placement whose stripped name lowercases to the lowercased hero name and
classify its payout token; report when no such line exists. -/
def heroPayoutScan : List PlacementMatch → HeroPayout
  | [] => HeroPayout.noLine
  | p :: rest =>
    if pyLower (pyStrip p.pname) = heroLowered then
      match parse_money_usd (pyStrip p.payoutToken) with
      | some v => HeroPayout.cash v
      | none => HeroPayout.nonCash
    else heroPayoutScan rest

/-- Embedding of `GGSummaryParser.parse`: the check order, failure reasons
and record construction of the source, over the regex-match record. -/
def GGSummaryParser.parse (site : String) (m : RegexMatches) :
    Option ParsedTournament × Option String :=
  match m.tournamentLine with
  | none => (none, some "parse_error:missing_tournament_header")
  | some tl =>
    match m.buyInToken with
    | none => (none, some "parse_error:missing_buy_in")
    | some btok =>
      match parse_money_usd btok with
      | none => (none, some "needs_review:non_cash_buy_in")
      | some buyIn =>
        match m.startedTs with
        | none => (none, some "parse_error:missing_start_time")
        | some startTs =>
          match heroPayoutScan m.placements with
          | HeroPayout.nonCash => (none, some "needs_review:non_cash_payout")
          | HeroPayout.noLine => (none, some "parse_error:missing_hero_payout_line")
          | HeroPayout.cash payout =>
            (some
              { site := site
                tournament_id := tl.tid
                tournament_start_ts_local := startTs
                hero_name := "Hero"
                tournament_name := some (pyStrip tl.tname)
                game_type := some (pyStrip tl.gtype)
                player_count := m.players
                currency := "USD"
                buy_in_amount := round2 buyIn
                prize_pool_amount :=
                  Option.map round2
                    (match m.poolToken with
                     | some ptok => parse_money_usd ptok
                     | none => none)
                payout_amount := round2 payout
                profit_amount := round2 (ratSub payout buyIn)
                finish_place := m.finishPlace }, none)

/-- C9: whenever `GGSummaryParser.parse` succeeds, the parsed record's hero
display name is the constant string Hero and its currency the constant
string USD — for every site argument and every regex-match record, hence
for every input text; no name or currency from the input reaches these
fields. -/
theorem c9_hero_and_currency_constant (site : String) (m : RegexMatches)
    (p : ParsedTournament) (r : Option String)
    (h : GGSummaryParser.parse site m = (some p, r)) :
    p.hero_name = "Hero" ∧ p.currency = "USD" := by
  unfold GGSummaryParser.parse at h
  rcases htl : m.tournamentLine with - | tl
  · simp only [htl] at h
    exact absurd h (by simp)
  simp only [htl] at h
  rcases hbt : m.buyInToken with - | btok
  · simp only [hbt] at h
    exact absurd h (by simp)
  simp only [hbt] at h
  rcases hbm : parse_money_usd btok with - | buyIn
  · simp only [hbm] at h
    exact absurd h (by simp)
  simp only [hbm] at h
  rcases hst : m.startedTs with - | startTs
  · simp only [hst] at h
    exact absurd h (by simp)
  simp only [hst] at h
  rcases hhp : heroPayoutScan m.placements with - | - | payout
  · simp only [hhp] at h
    exact absurd h (by simp)
  · simp only [hhp] at h
    exact absurd h (by simp)
  simp only [hhp] at h
  simp only [Prod.mk.injEq, Option.some.injEq] at h
  obtain ⟨hp, -⟩ := h
  subst hp
  exact ⟨rfl, rfl⟩

/-- Witness regex-match record: a fully parseable summary. -/
def m9 : RegexMatches :=
  { tournamentLine := some { tid := 77, tname := "Daily Special", gtype := "NLH" }
    buyInToken := some "$5"
    players := some 100
    poolToken := none
    startedTs := some 1000
    finishPlace := some 3
    placements := [{ place := 3, pname := "Hero", payoutToken := "$12.50" }] }

/-- The record `GGSummaryParser.parse` produces on `m9`. -/
def p9 : ParsedTournament :=
  { site := "GG"
    tournament_id := 77
    tournament_start_ts_local := 1000
    hero_name := "Hero"
    tournament_name := some "Daily Special"
    game_type := some "NLH"
    player_count := some 100
    currency := "USD"
    buy_in_amount := mkRat 5 1
    prize_pool_amount := none
    payout_amount := mkRat 25 2
    profit_amount := mkRat 15 2
    finish_place := some 3 }

theorem c9_hero_and_currency_constant_witness :
    GGSummaryParser.parse "GG" m9 = (some p9, none) ∧
      p9.hero_name = "Hero" ∧ p9.currency = "USD" := by
  refine ⟨by decide, ?_⟩
  exact c9_hero_and_currency_constant "GG" m9 p9 none (by decide)

/-- Terminal statuses of the per-file state machine of
`TournamentImporter.run`. -/
inductive Status
  | inserted
  | duplicate
  | needs_review
  | error
  | dry_run
deriving DecidableEq

/-- Stage folders a file can be in after its handling. -/
inductive Loc
  | inputDir
  | processedDir
  | needsReviewDir
  | duplicateDir
deriving DecidableEq

/-- One Ingestion Event record appended by `log_jsonl`: file name, content
hash when computed, terminal status and reason.  The echoed tournament
fields and the write timestamp are opaque to every claim and omitted. -/
structure LogEvent where
  logFileName : String
  logFileHash : Option Nat
  status : Status
  reason : String
deriving DecidableEq

/-- One input file: name, content hash, and the regex-match record its text
produces.  `sha256_file` lives in `src/utils/hashing.py`, which is not under
`src/`.  Modelled from the spec: the fingerprint is a deterministic digest
of file content used to detect duplicates regardless of file name, so the
digest is carried as a per-file attribute — identical content means
identical hash and identical match record. -/
structure FileRec where
  fname : String
  fhash : Nat
  content : RegexMatches
deriving DecidableEq

/-- Exception points of the external operations inside the per-file
handling of `TournamentImporter.run`, as explicit fault flags: a failure
while hashing or reading the file before the parse (`preFail`), a database
error inside the transaction other than a uniqueness conflict (`dbFail`),
and failures of the moves into the three stage folders.  Each flag
corresponds to a `try`/`except` path of the source. -/
structure Faults where
  preFail : Bool
  dbFail : Bool
  moveProcessedFail : Bool
  moveNeedsReviewFail : Bool
  moveDuplicateFail : Bool
deriving DecidableEq

def noFaults : Faults :=
  { preFail := false, dbFail := false, moveProcessedFail := false,
    moveNeedsReviewFail := false, moveDuplicateFail := false }

/-- The configuration surface of the importer that the per-file state
machine reads. -/
structure RunConfig where
  site : String
  dry_run : Bool
  session_gap_minutes : Int
deriving DecidableEq

/-- Python `str.startswith` on the reason tags. -/
def pyStartsWith (s pre : String) : Bool := pre.data.isPrefixOf s.data

def needsReviewTag : String := "needs_review"

/-- Result of one file's handling: the store afterwards, the file's final
location, and the one log record the handling appends. -/
structure Outcome where
  file : FileRec
  faults : Faults
  loc : Loc
  event : LogEvent
deriving DecidableEq

/-- The per-file state machine of `TournamentImporter.run` (phase 3 body):
hash pre-check, parse, dry-run short-circuit, then the transactional
assign-insert-move-commit with its `IntegrityError` and generic handlers,
and the outermost fatal handler.  Every branch mirrors the source,
including the best-effort needs-review moves whose own failure is
swallowed. -/
def processFile (cfg : RunConfig) (db : DB) (f : FileRec) (ft : Faults) :
    DB × Loc × LogEvent :=
  if ft.preFail then
    (db,
     if cfg.dry_run then Loc.inputDir
     else if ft.moveNeedsReviewFail then Loc.inputDir else Loc.needsReviewDir,
     { logFileName := f.fname, logFileHash := none, status := Status.error,
       reason := "fatal:Exception" })
  else
    if SQL_HASH_EXISTS db f.fhash then
      if cfg.dry_run then
        (db, Loc.inputDir,
         { logFileName := f.fname, logFileHash := some f.fhash,
           status := Status.duplicate, reason := "hash_exists" })
      else if ft.moveDuplicateFail then
        (db,
         if ft.moveNeedsReviewFail then Loc.inputDir else Loc.needsReviewDir,
         { logFileName := f.fname, logFileHash := some f.fhash,
           status := Status.error, reason := "fatal:Exception" })
      else
        (db, Loc.duplicateDir,
         { logFileName := f.fname, logFileHash := some f.fhash,
           status := Status.duplicate, reason := "hash_exists" })
    else
      match GGSummaryParser.parse cfg.site f.content with
      | (none, reason) =>
        let rtext := match reason with
          | some s => s
          | none => "unknown_parse_failure"
        let st := if pyStartsWith rtext needsReviewTag then Status.needs_review
          else Status.error
        if cfg.dry_run then
          (db, Loc.inputDir,
           { logFileName := f.fname, logFileHash := some f.fhash, status := st,
             reason := rtext })
        else if ft.moveNeedsReviewFail then
          (db, Loc.inputDir,
           { logFileName := f.fname, logFileHash := some f.fhash,
             status := Status.error, reason := "fatal:Exception" })
        else
          (db, Loc.needsReviewDir,
           { logFileName := f.fname, logFileHash := some f.fhash, status := st,
             reason := rtext })
      | (some parsed, _) =>
        if cfg.dry_run then
          (db, Loc.inputDir,
           { logFileName := f.fname, logFileHash := some f.fhash,
             status := Status.dry_run, reason := "no_db_no_move" })
        else if ft.dbFail then
          (db,
           if ft.moveNeedsReviewFail then Loc.inputDir else Loc.needsReviewDir,
           { logFileName := f.fname, logFileHash := some f.fhash,
             status := Status.error,
             reason := "move_failed_or_db_error:Exception" })
        else
          let db2 := insertEvent db parsed.site parsed.tournament_start_ts_local
            cfg.session_gap_minutes f.fhash
          if SQL_HASH_EXISTS db f.fhash then
            if ft.moveDuplicateFail then
              (db,
               if ft.moveNeedsReviewFail then Loc.inputDir else Loc.needsReviewDir,
               { logFileName := f.fname, logFileHash := some f.fhash,
                 status := Status.error, reason := "fatal:Exception" })
            else
              (db, Loc.duplicateDir,
               { logFileName := f.fname, logFileHash := some f.fhash,
                 status := Status.duplicate, reason := "unique_conflict" })
          else if ft.moveProcessedFail then
            (db,
             if ft.moveNeedsReviewFail then Loc.inputDir else Loc.needsReviewDir,
             { logFileName := f.fname, logFileHash := some f.fhash,
               status := Status.error,
               reason := "move_failed_or_db_error:Exception" })
          else
            (db2, Loc.processedDir,
             { logFileName := f.fname, logFileHash := some f.fhash,
               status := Status.inserted, reason := "ok" })

/-- Phase 3 of `TournamentImporter.run`: process the queue in order,
threading the store and collecting one outcome per file. -/
def processAll (cfg : RunConfig) (db : DB) :
    List (FileRec × Faults) → DB × List Outcome
  | [] => (db, [])
  | (f, ft) :: rest =>
    let step := processFile cfg db f ft
    let next := processAll cfg step.1 rest
    (next.1,
      { file := f, faults := ft, loc := step.2.1, event := step.2.2 } :: next.2)

/-- Phase 1 of `TournamentImporter.run`: tentative parse of each file
purely for ordering — the parsed start timestamp, `none` when the read or
the parse fails (such files sort last). -/
def preParseKey (cfg : RunConfig) (f : FileRec) (ft : Faults) : Option Int :=
  if ft.preFail then none
  else
    match GGSummaryParser.parse cfg.site f.content with
    | (some parsed, _) => some parsed.tournament_start_ts_local
    | (none, _) => none

/-- Strict order on phase 2 sort keys `(key is none, key)`: parsed
timestamps ascending, `none` after every timestamp. -/
def keyLT : Option Int → Option Int → Bool
  | none, _ => false
  | some _, none => true
  | some a, some b => decide (a < b)

/-- Stable insertion for phase 2: the inserted element passes every element
strictly smaller and stops before the first element not strictly smaller,
so listed order is kept among equal keys (Python's sort is stable). -/
def insertSorted (cfg : RunConfig) (x : FileRec × Faults) :
    List (FileRec × Faults) → List (FileRec × Faults)
  | [] => [x]
  | y :: rest =>
    if keyLT (preParseKey cfg y.1 y.2) (preParseKey cfg x.1 x.2) then
      y :: insertSorted cfg x rest
    else x :: y :: rest

/-- Phase 2 of `TournamentImporter.run`: sort the scanned files by
pre-parse key, oldest first, unparseable last, stable. -/
def sortQueue (cfg : RunConfig) : List (FileRec × Faults) → List (FileRec × Faults)
  | [] => []
  | x :: rest => insertSorted cfg x (sortQueue cfg rest)

/-- `TournamentImporter.run`: sort the scanned input files by tentative
timestamp, then run the per-file state machine over each; yields the final
store and the outcomes in processing order. -/
def TournamentImporter.run (cfg : RunConfig) (db : DB)
    (files : List (FileRec × Faults)) : DB × List Outcome :=
  processAll cfg db (sortQueue cfg files)

/-- The folder that corresponds to each logged terminal status: inserted
files are in processed, duplicates in duplicate, needs-review and error
files are both filed with needs-review, dry-run files stay in the input
directory. -/
def locOfStatus : Status → Loc
  | Status.inserted => Loc.processedDir
  | Status.duplicate => Loc.duplicateDir
  | Status.needs_review => Loc.needsReviewDir
  | Status.error => Loc.needsReviewDir
  | Status.dry_run => Loc.inputDir

theorem SQL_HASH_EXISTS_insertEvent (db : DB) (site : String) (ts gap : Int)
    (fh h : Nat) (hex : SQL_HASH_EXISTS db h = true) :
    SQL_HASH_EXISTS (insertEvent db site ts gap fh) h = true := by
  unfold SQL_HASH_EXISTS at hex ⊢
  rw [List.any_eq_true] at hex ⊢
  obtain ⟨r, hr, hrh⟩ := hex
  unfold insertEvent
  rcases hfind : find_existing_session_within_gap db site ts gap with - | ⟨sid, sstart⟩
  · rw [ensure_mint hfind]
    refine ⟨r, ?_, hrh⟩
    show r ∈ _ ++ _
    exact List.mem_append.mpr (Or.inl hr)
  · rw [ensure_join_eq hfind]
    refine ⟨bumpRow site sid ts r, ?_, ?_⟩
    · show _ ∈ List.map (bumpRow site sid ts) db.rows ++ _
      exact List.mem_append.mpr (Or.inl (List.mem_map_of_mem _ hr))
    · rw [bumpRow_hash]
      exact hrh

theorem SQL_HASH_EXISTS_insert_self (db : DB) (r : Row) :
    SQL_HASH_EXISTS (SQL_INSERT_TOURNAMENT db r) r.hash = true := by
  unfold SQL_HASH_EXISTS SQL_INSERT_TOURNAMENT
  rw [List.any_eq_true]
  exact ⟨r, List.mem_append.mpr (Or.inr (List.mem_singleton.mpr rfl)), by simp⟩

theorem SQL_HASH_EXISTS_insertEvent_self (db : DB) (site : String) (ts gap : Int)
    (fh : Nat) : SQL_HASH_EXISTS (insertEvent db site ts gap fh) fh = true := by
  unfold insertEvent
  exact SQL_HASH_EXISTS_insert_self _ _

theorem processFile_hash_mono (cfg : RunConfig) (db : DB) (f : FileRec)
    (ft : Faults) (h : Nat) (hex : SQL_HASH_EXISTS db h = true) :
    SQL_HASH_EXISTS (processFile cfg db f ft).1 h = true := by
  unfold processFile
  dsimp only
  repeat' split
  all_goals try exact hex
  all_goals exact SQL_HASH_EXISTS_insertEvent _ _ _ _ _ _ hex

theorem processFile_hash_present (cfg : RunConfig) (db : DB) (f : FileRec)
    (ft : Faults) (hex : SQL_HASH_EXISTS db f.fhash = true) :
    (processFile cfg db f ft).1 = db ∧
    (processFile cfg db f ft).2.2.status ≠ Status.inserted ∧
    (cfg.dry_run = false → ft.preFail = false → ft.moveDuplicateFail = false →
      (processFile cfg db f ft).2.2.status = Status.duplicate ∧
      (processFile cfg db f ft).2.1 = Loc.duplicateDir) := by
  unfold processFile
  dsimp only
  repeat' split
  all_goals simp_all

theorem processFile_inserted_characterized (cfg : RunConfig) (db : DB)
    (f : FileRec) (ft : Faults) :
    (processFile cfg db f ft).2.2.status = Status.inserted →
    SQL_HASH_EXISTS db f.fhash = false ∧
    SQL_HASH_EXISTS (processFile cfg db f ft).1 f.fhash = true := by
  unfold processFile
  dsimp only
  repeat' split
  all_goals intro h
  all_goals simp_all [SQL_HASH_EXISTS_insertEvent_self]

theorem processFile_agree (cfg : RunConfig) (db : DB) (f : FileRec) (ft : Faults)
    (hdry : cfg.dry_run = false) (h1 : ft.moveProcessedFail = false)
    (h2 : ft.moveNeedsReviewFail = false) (h3 : ft.moveDuplicateFail = false) :
    (processFile cfg db f ft).2.1 = locOfStatus (processFile cfg db f ft).2.2.status ∧
    (processFile cfg db f ft).2.2.status ≠ Status.dry_run := by
  unfold processFile
  dsimp only
  repeat' split
  all_goals simp_all [locOfStatus]

theorem processFile_dry (cfg : RunConfig) (db : DB) (f : FileRec) (ft : Faults)
    (hdry : cfg.dry_run = true) :
    (processFile cfg db f ft).1 = db ∧ (processFile cfg db f ft).2.1 = Loc.inputDir := by
  unfold processFile
  dsimp only
  repeat' split
  all_goals simp_all

theorem processFile_dry_status (cfg : RunConfig) (db : DB) (f : FileRec)
    (ft : Faults) (hdry : cfg.dry_run = true) (hpre : ft.preFail = false)
    (hex : SQL_HASH_EXISTS db f.fhash = false)
    (hparse : (GGSummaryParser.parse cfg.site f.content).1.isSome = true) :
    (processFile cfg db f ft).2.2.status = Status.dry_run := by
  unfold processFile
  dsimp only
  repeat' split
  all_goals simp_all

theorem processAll_length (cfg : RunConfig) (l : List (FileRec × Faults)) :
    ∀ db : DB, (processAll cfg db l).2.length = l.length := by
  induction l with
  | nil => intro db; rfl
  | cons x rest ih =>
    intro db
    rcases x with ⟨f, ft⟩
    simp only [processAll, List.length_cons]
    rw [ih]

theorem insertSorted_length (cfg : RunConfig) (x : FileRec × Faults)
    (l : List (FileRec × Faults)) :
    (insertSorted cfg x l).length = l.length + 1 := by
  induction l with
  | nil => rfl
  | cons y rest ih =>
    unfold insertSorted
    split
    · simp only [List.length_cons, ih]
    · simp only [List.length_cons]

theorem sortQueue_length (cfg : RunConfig) (l : List (FileRec × Faults)) :
    (sortQueue cfg l).length = l.length := by
  induction l with
  | nil => rfl
  | cons x rest ih =>
    unfold sortQueue
    rw [insertSorted_length, ih, List.length_cons]

theorem processAll_hash_blocked (cfg : RunConfig) (h : Nat) :
    ∀ (l : List (FileRec × Faults)) (db : DB), SQL_HASH_EXISTS db h = true →
    ∀ o ∈ (processAll cfg db l).2, o.file.fhash = h →
      o.event.status ≠ Status.inserted ∧
      (cfg.dry_run = false → o.faults.preFail = false →
        o.faults.moveDuplicateFail = false →
        o.event.status = Status.duplicate ∧ o.loc = Loc.duplicateDir) := by
  intro l
  induction l with
  | nil =>
    intro db hdb o ho
    simp [processAll] at ho
  | cons x rest ih =>
    rcases x with ⟨f, ft⟩
    intro db hdb o ho hfh
    simp only [processAll, List.mem_cons] at ho
    rcases ho with rfl | ho
    · have hfh2 : f.fhash = h := hfh
      have hex : SQL_HASH_EXISTS db f.fhash = true := by
        rw [hfh2]
        exact hdb
      have hp := processFile_hash_present cfg db f ft hex
      exact ⟨hp.2.1, hp.2.2⟩
    · exact ih (processFile cfg db f ft).1 (processFile_hash_mono cfg db f ft h hdb) o ho hfh

theorem processAll_pairwise_insert (cfg : RunConfig) :
    ∀ (l : List (FileRec × Faults)) (db : DB),
    List.Pairwise (fun o1 o2 => o1.file.fhash = o2.file.fhash →
      o1.event.status = Status.inserted →
        o2.event.status ≠ Status.inserted ∧
        (cfg.dry_run = false → o2.faults.preFail = false →
          o2.faults.moveDuplicateFail = false →
          o2.event.status = Status.duplicate ∧ o2.loc = Loc.duplicateDir))
      (processAll cfg db l).2 := by
  intro l
  induction l with
  | nil => intro db; simp [processAll]
  | cons x rest ih =>
    rcases x with ⟨f, ft⟩
    intro db
    simp only [processAll]
    rw [List.pairwise_cons]
    constructor
    · intro o ho hfh hins
      have hi := processFile_inserted_characterized cfg db f ft hins
      exact processAll_hash_blocked cfg f.fhash rest _ hi.2 o ho hfh.symm
    · exact ih _

theorem processAll_loc_agree (cfg : RunConfig) :
    ∀ (l : List (FileRec × Faults)) (db : DB), ∀ o ∈ (processAll cfg db l).2,
      (cfg.dry_run = true → o.loc = Loc.inputDir) ∧
      (cfg.dry_run = false → o.faults.moveProcessedFail = false →
        o.faults.moveNeedsReviewFail = false → o.faults.moveDuplicateFail = false →
        o.loc = locOfStatus o.event.status ∧ o.event.status ≠ Status.dry_run) := by
  intro l
  induction l with
  | nil =>
    intro db o ho
    simp [processAll] at ho
  | cons x rest ih =>
    rcases x with ⟨f, ft⟩
    intro db o ho
    simp only [processAll, List.mem_cons] at ho
    rcases ho with rfl | ho
    · constructor
      · intro hdry
        exact (processFile_dry cfg db f ft hdry).2
      · intro hdry h1 h2 h3
        exact processFile_agree cfg db f ft hdry h1 h2 h3
    · exact ih _ o ho

theorem processAll_dry (cfg : RunConfig) (hdry : cfg.dry_run = true) :
    ∀ (l : List (FileRec × Faults)) (db : DB),
    (processAll cfg db l).1 = db ∧
    ∀ o ∈ (processAll cfg db l).2, o.loc = Loc.inputDir ∧
      (o.faults.preFail = false → SQL_HASH_EXISTS db o.file.fhash = false →
        (GGSummaryParser.parse cfg.site o.file.content).1.isSome = true →
        o.event.status = Status.dry_run) := by
  intro l
  induction l with
  | nil =>
    intro db
    exact ⟨rfl, by intro o ho; simp [processAll] at ho⟩
  | cons x rest ih =>
    rcases x with ⟨f, ft⟩
    intro db
    have hstep := processFile_dry cfg db f ft hdry
    constructor
    · show (processAll cfg (processFile cfg db f ft).1 rest).1 = db
      rw [hstep.1]
      exact (ih db).1
    · intro o ho
      simp only [processAll, List.mem_cons] at ho
      rcases ho with rfl | ho
      · refine ⟨hstep.2, ?_⟩
        intro hpre hex hparse
        exact processFile_dry_status cfg db f ft hdry hpre hex hparse
      · rw [hstep.1] at ho
        exact (ih db).2 o ho

/-- C4 (amended): in any run, once a file with a given content hash has
reached the inserted outcome, no later file with the same hash is ever
inserted — the batch always runs to completion with one outcome per file —
and every such later file whose handling reaches the hash pre-check intact
(no read fault) and whose duplicate-folder move succeeds is moved to the
duplicate folder and logged duplicate; a failing duplicate move is caught
by the outermost handler and logged as an error instead (still never fatal
to the batch). -/
theorem c4_amended_same_hash_inserted_once (cfg : RunConfig) (db0 : DB)
    (files : List (FileRec × Faults)) :
    (TournamentImporter.run cfg db0 files).2.length = files.length ∧
    List.Pairwise (fun o1 o2 => o1.file.fhash = o2.file.fhash →
      o1.event.status = Status.inserted →
        o2.event.status ≠ Status.inserted ∧
        (cfg.dry_run = false → o2.faults.preFail = false →
          o2.faults.moveDuplicateFail = false →
          o2.event.status = Status.duplicate ∧ o2.loc = Loc.duplicateDir))
      (TournamentImporter.run cfg db0 files).2 := by
  constructor
  · unfold TournamentImporter.run
    rw [processAll_length, sortQueue_length]
  · exact processAll_pairwise_insert cfg (sortQueue cfg files) db0

def cfgBatch : RunConfig := { site := "GG", dry_run := false, session_gap_minutes := 60 }

def c4FileA : FileRec := { fname := "a.txt", fhash := 5, content := m9 }

def c4FileB : FileRec := { fname := "b.txt", fhash := 5, content := m9 }

def c4DupFault : Faults := { noFaults with moveDuplicateFail := true }

/-- C4 counterexample: two files with identical content, the second with a
failing duplicate-folder move.  The first is inserted; the second — despite
its content hash already being stored — is logged with status error and
filed with needs-review, not moved to the duplicate folder and not logged
duplicate as the claim states. -/
theorem c4_counterexample_duplicate_move_failure :
    c4FileA.fhash = c4FileB.fhash ∧
    cfgBatch.dry_run = false ∧
    ((TournamentImporter.run cfgBatch emptyDB
        [(c4FileA, noFaults), (c4FileB, c4DupFault)]).2.map
      (fun o => (o.event.status, o.loc)))
      = [(Status.inserted, Loc.processedDir), (Status.error, Loc.needsReviewDir)] := by
  decide

/-- C5 (amended): every run appends exactly one Ingestion Event per input
file; outside dry-run, for every file whose folder moves all succeed, the
file's final location agrees with its logged status (inserted in processed,
duplicate in duplicate, needs-review and error filed with needs-review) and
the file never stays in the input directory; under dry-run every file stays
in the input directory.  When a best-effort move fails, its failure is
swallowed and the file can remain in the input directory while the logged
status stands. -/
theorem c5_amended_one_record_location_agrees (cfg : RunConfig) (db0 : DB)
    (files : List (FileRec × Faults)) :
    (TournamentImporter.run cfg db0 files).2.length = files.length ∧
    ∀ o ∈ (TournamentImporter.run cfg db0 files).2,
      (cfg.dry_run = true → o.loc = Loc.inputDir) ∧
      (cfg.dry_run = false → o.faults.moveProcessedFail = false →
        o.faults.moveNeedsReviewFail = false → o.faults.moveDuplicateFail = false →
        o.loc = locOfStatus o.event.status ∧ o.event.status ≠ Status.dry_run ∧
          o.loc ≠ Loc.inputDir) := by
  constructor
  · unfold TournamentImporter.run
    rw [processAll_length, sortQueue_length]
  · intro o ho
    have hagree := processAll_loc_agree cfg (sortQueue cfg files) db0 o ho
    refine ⟨hagree.1, ?_⟩
    intro hdry h1 h2 h3
    obtain ⟨hloc, hst⟩ := hagree.2 hdry h1 h2 h3
    refine ⟨hloc, hst, ?_⟩
    rw [hloc]
    cases hs : o.event.status <;> simp [locOfStatus]
    exact absurd hs hst

def c5BadContent : RegexMatches :=
  { tournamentLine := none, buyInToken := none, players := none, poolToken := none,
    startedTs := none, finishPlace := none, placements := [] }

def c5File : FileRec := { fname := "bad.txt", fhash := 9, content := c5BadContent }

def c5NRFault : Faults := { noFaults with moveNeedsReviewFail := true }

/-- C5 counterexample: outside dry-run, an unparseable file whose
needs-review move fails is logged (status error) but stays in the input
directory — the best-effort move failure is swallowed, refuting the claim
that a file is never left in the input directory. -/
theorem c5_counterexample_file_left_in_input :
    cfgBatch.dry_run = false ∧
    ((TournamentImporter.run cfgBatch emptyDB [(c5File, c5NRFault)]).2.map
      (fun o => (o.event.status, o.loc)))
      = [(Status.error, Loc.inputDir)] := by
  decide

/-- C6 (amended): a dry run writes nothing to the store and moves no file —
every file stays in the input directory and the store is returned unchanged
— and appends exactly one log record per file; the record has status
dry-run for every file that reaches the dry-run short-circuit (readable,
hash not already stored, parseable), while files short-circuited earlier
are logged duplicate, needs-review or error as usual. -/
theorem c6_amended_dry_run_no_writes (cfg : RunConfig) (db0 : DB)
    (files : List (FileRec × Faults)) (hdry : cfg.dry_run = true) :
    (TournamentImporter.run cfg db0 files).1 = db0 ∧
    (TournamentImporter.run cfg db0 files).2.length = files.length ∧
    ∀ o ∈ (TournamentImporter.run cfg db0 files).2,
      o.loc = Loc.inputDir ∧
      (o.faults.preFail = false → SQL_HASH_EXISTS db0 o.file.fhash = false →
        (GGSummaryParser.parse cfg.site o.file.content).1.isSome = true →
        o.event.status = Status.dry_run) := by
  refine ⟨(processAll_dry cfg hdry (sortQueue cfg files) db0).1, ?_, ?_⟩
  · unfold TournamentImporter.run
    rw [processAll_length, sortQueue_length]
  · exact (processAll_dry cfg hdry (sortQueue cfg files) db0).2

def cfgDry : RunConfig := { site := "GG", dry_run := true, session_gap_minutes := 60 }

def c6Row : Row :=
  { site := "GG", ts := 0, sessionId := 0, sessionStart := 0,
    sessionIndex := 1, notes := none, modifiedAt := false, hash := 5 }

def c6DB : DB := { rows := [c6Row], nextId := 1 }

def c6File : FileRec := { fname := "dup.txt", fhash := 5, content := m9 }

/-- C6 counterexample: in a dry run over a store that already holds the
file's content hash, the file's one log record has status duplicate, not
dry-run, refuting the claim that every input file gets a dry-run record. -/
theorem c6_counterexample_duplicate_status_in_dry_run :
    cfgDry.dry_run = true ∧
    ((TournamentImporter.run cfgDry c6DB [(c6File, noFaults)]).2.map
      (fun o => (o.event.status, o.loc)))
      = [(Status.duplicate, Loc.inputDir)] := by
  decide

theorem c6_amended_dry_run_no_writes_witness :
    (TournamentImporter.run cfgDry emptyDB [(c6File, noFaults)]).1 = emptyDB ∧
    (TournamentImporter.run cfgDry emptyDB [(c6File, noFaults)]).2.length = 1 := by
  have h := c6_amended_dry_run_no_writes cfgDry emptyDB [(c6File, noFaults)] rfl
  exact ⟨h.1, h.2.1⟩
